import Mathlib

/-!
# Verification of the Infinite (Vanishing) Tic Tac Toe engine

Shallow embedding of the two Python engine implementations of this
repository:

* `Backend` models `src/backend/game_logic.py` (`InfiniteTicTacToe`):
  cells hold the `Player` enum value (`X`, `O`, `EMPTY`), `make_move`
  returns a plain success Boolean, validity is checked by
  `is_valid_move` (game in progress, then bounds, then cell empty), the
  vanish rule pops the oldest history entry *before* placing, and the
  win check is run for the current player only.

* `MainImpl` models `src/Back-End-Game-Logic/game_logic_main.py`
  (`InfiniteTicTacToe`): cells hold `Option` of the player symbol
  (`X` / `Y`, `None` = empty), `make_move` returns a structured result
  dict, validation checks bounds, then occupancy, then game status, the
  vanish rule appends first and then pops when the history exceeds 3,
  and the win check scans the whole board for any winner.

Boards are total functions on `Fin 3 × Fin 3`; the integer inputs of
`make_move` are validated exactly as in the Python code before being
converted to board indices.
-/

namespace Backend

/-- The `Player` enum of `game_logic.py`: `X`, `O` and the empty-cell
marker `EMPTY` (the Python `Player.EMPTY.value` string `" "`). -/
inductive Player where
  | X
  | O
  | EMPTY
deriving DecidableEq, Repr

/-- The `GameState` enum of `game_logic.py`. -/
inductive GameState where
  | IN_PROGRESS
  | X_WINS
  | O_WINS
  | DRAW
deriving DecidableEq, Repr

/-- A board position: `(row, col)`, both in `0..2`. -/
abbrev Pos := Fin 3 × Fin 3

/-- The 3×3 board `board[row][col]`, as a total function on positions. -/
abbrev Board := Pos → Player

/-- Write value `v` at position `q` (Python `self.board[r][c] = v`). -/
def setCell (b : Board) (q : Pos) (v : Player) : Board :=
  fun q' => if q' = q then v else b q'

/-- The full game state of `InfiniteTicTacToe.__init__`. -/
structure GameSt where
  board : Board
  move_history_x : List Pos
  move_history_o : List Pos
  current_player : Player
  state : GameState

/-- The initial state built by the constructor: empty board, empty
histories, player `X` to move, game in progress. -/
def initSt : GameSt :=
  { board := fun _ => Player.EMPTY
    move_history_x := []
    move_history_o := []
    current_player := Player.X
    state := GameState.IN_PROGRESS }

/-- Bounds test of `is_valid_move`: `row` and `col` each in `[0,2]`
(the Python test is `row < 0 or row > 2 or col < 0 or col > 2`,
negated). -/
def inBounds (row col : Int) : Bool :=
  0 ≤ row && row ≤ 2 && 0 ≤ col && col ≤ 2

/-- Convert a validated integer coordinate to a board index. For
`0 ≤ n ≤ 2` this is the identity embedding. -/
def toFin3 (n : Int) : Fin 3 :=
  ⟨n.toNat % 3, Nat.mod_lt _ (by decide)⟩

/-- `is_valid_move`: game still in progress, position within bounds,
target cell empty — in that source order. -/
def is_valid_move (g : GameSt) (row col : Int) : Bool :=
  if g.state ≠ GameState.IN_PROGRESS then false
  else if ¬ inBounds row col then false
  else if g.board (toFin3 row, toFin3 col) ≠ Player.EMPTY then false
  else true

/-- The vanish rule applied to the board: if the history already has 3
entries, clear the cell of its head (`move_history[0]`). -/
def trimBoard (b : Board) (h : List Pos) : Board :=
  if 3 ≤ h.length then
    match h with
    | [] => b
    | old :: _ => setCell b old Player.EMPTY
  else b

/-- The vanish rule applied to the history: if it already has 3
entries, drop the head (`move_history.pop(0)`). -/
def trimHist (h : List Pos) : List Pos :=
  if 3 ≤ h.length then h.tail else h

/-- Win check `_check_win`: three cells equal to the player's symbol in
some row, column, or diagonal (rows, columns, main diagonal,
anti-diagonal, in source order). -/
def check_win (b : Board) (p : Player) : Bool :=
  (b (0, 0) == p && b (0, 1) == p && b (0, 2) == p) ||
  (b (1, 0) == p && b (1, 1) == p && b (1, 2) == p) ||
  (b (2, 0) == p && b (2, 1) == p && b (2, 2) == p) ||
  (b (0, 0) == p && b (1, 0) == p && b (2, 0) == p) ||
  (b (0, 1) == p && b (1, 1) == p && b (2, 1) == p) ||
  (b (0, 2) == p && b (1, 2) == p && b (2, 2) == p) ||
  (b (0, 0) == p && b (1, 1) == p && b (2, 2) == p) ||
  (b (0, 2) == p && b (1, 1) == p && b (2, 0) == p)

/-- Draw check `_check_draw`: no empty cell remains on the board. -/
def check_draw (b : Board) : Bool :=
  decide (∀ q : Pos, b q ≠ Player.EMPTY)

/-- The mutation performed by `make_move` once the move has been
validated, with `r, c` the converted in-bounds coordinates: vanish the
oldest piece if the mover already has 3, place the new piece, append it
to the history, update the game state from the win/draw checks, switch
the current player. -/
def applyMove (g : GameSt) (r c : Fin 3) : GameSt :=
  let p := g.current_player
  let hist := if p = Player.X then g.move_history_x else g.move_history_o
  let b1 := trimBoard g.board hist
  let h1 := trimHist hist
  let b2 := setCell b1 (r, c) p
  let h2 := h1 ++ [(r, c)]
  let st :=
    if check_win b2 p then
      (if p = Player.X then GameState.X_WINS else GameState.O_WINS)
    else if check_draw b2 then GameState.DRAW
    else g.state
  { board := b2
    move_history_x := if p = Player.X then h2 else g.move_history_x
    move_history_o := if p = Player.X then g.move_history_o else h2
    current_player := if p = Player.X then Player.O else Player.X
    state := st }

/-- `make_move`: validate, then mutate; returns the Python Boolean
result paired with the (possibly unchanged) state. -/
def make_move (g : GameSt) (row col : Int) : Bool × GameSt :=
  if is_valid_move g row col then
    (true, applyMove g (toFin3 row) (toFin3 col))
  else (false, g)

/-- `reset`: restore the initial state unconditionally. -/
def reset (_g : GameSt) : GameSt := initSt

/-- `get_oldest_piece_position`: head of the player's history, if any. -/
def get_oldest_piece_position (g : GameSt) (p : Player) : Option Pos :=
  let h := if p = Player.X then g.move_history_x else g.move_history_o
  if 0 < h.length then some h.head! else none

/-- An externally invokable operation of the engine. -/
inductive Op where
  | move (row col : Int)
  | reset
deriving Repr

/-- Apply one operation to a state. -/
def applyOp (g : GameSt) : Op → GameSt
  | Op.move row col => (make_move g row col).2
  | Op.reset => reset g

/-- Run a sequence of operations from the initial state. -/
def run (ops : List Op) : GameSt := ops.foldl applyOp initSt

/-- A state is reachable when some sequence of move and reset
operations produces it from the initial state. -/
def Reachable (g : GameSt) : Prop := ∃ ops : List Op, run ops = g

/-- The history of the given player in a state (the Python selection
`move_history_x if player == Player.X else move_history_o`). -/
def histOf (g : GameSt) (p : Player) : List Pos :=
  if p = Player.X then g.move_history_x else g.move_history_o

/-- The symbol of the other player, as computed at the player switch:
`Player.O if current is Player.X else Player.X`. -/
def otherPlayer (p : Player) : Player :=
  if p = Player.X then Player.O else Player.X

/-- Apply one integer move attempt, keeping the state. -/
def step (g : GameSt) (mv : Int × Int) : GameSt := (make_move g mv.1 mv.2).2

/-- Run a list of integer move attempts from the initial state. -/
def runMoves (l : List (Int × Int)) : GameSt := l.foldl step initSt

end Backend

namespace MainImpl

/-- The player symbols of `game_logic_main.py`: `'X'` and `'Y'`. -/
inductive MPlayer where
  | X
  | Y
deriving DecidableEq, Repr

/-- The `game_status` strings of `game_logic_main.py`. -/
inductive MStatus where
  | ongoing
  | X_wins
  | Y_wins
  | draw
deriving DecidableEq, Repr

/-- The string value of a status, as interpolated into the game-over
message. -/
def statusStr : MStatus → String
  | MStatus.ongoing => "ongoing"
  | MStatus.X_wins => "X_wins"
  | MStatus.Y_wins => "Y_wins"
  | MStatus.draw => "draw"

/-- The 3×3 board of `game_logic_main.py`: `None` for an empty cell,
otherwise the occupying player. -/
abbrev MBoard := Backend.Pos → Option MPlayer

/-- Write value `v` at position `q`. -/
def msetCell (b : MBoard) (q : Backend.Pos) (v : Option MPlayer) : MBoard :=
  fun q' => if q' = q then v else b q'

/-- The game state of the `game_logic_main.py` engine. -/
structure MSt where
  board : MBoard
  moves_X : List Backend.Pos
  moves_Y : List Backend.Pos
  current_player : MPlayer
  game_status : MStatus
  total_moves : Nat

/-- The initial state of `__init__`. -/
def minit : MSt :=
  { board := fun _ => none
    moves_X := []
    moves_Y := []
    current_player := MPlayer.X
    game_status := MStatus.ongoing
    total_moves := 0 }

/-- The `player_moves` dictionary lookup. -/
def movesOf (g : MSt) (p : MPlayer) : List Backend.Pos :=
  if p = MPlayer.X then g.moves_X else g.moves_Y

/-- `_is_valid_position`: `0 <= row <= 2 and 0 <= col <= 2`. -/
def mis_valid_position (row col : Int) : Bool :=
  0 ≤ row && row ≤ 2 && 0 ≤ col && col ≤ 2

/-- The Python line check `a == b == c and a is not None`. -/
def sameSome (x y z : Option MPlayer) : Bool :=
  x == y && y == z && x.isSome

/-- `_check_winner`: scan rows, then columns, then the two diagonals,
returning the symbol of the first complete line found, else `None`. -/
def mcheck_winner (b : MBoard) : Option MPlayer :=
  if sameSome (b (0, 0)) (b (0, 1)) (b (0, 2)) then b (0, 0)
  else if sameSome (b (1, 0)) (b (1, 1)) (b (1, 2)) then b (1, 0)
  else if sameSome (b (2, 0)) (b (2, 1)) (b (2, 2)) then b (2, 0)
  else if sameSome (b (0, 0)) (b (1, 0)) (b (2, 0)) then b (0, 0)
  else if sameSome (b (0, 1)) (b (1, 1)) (b (2, 1)) then b (0, 1)
  else if sameSome (b (0, 2)) (b (1, 2)) (b (2, 2)) then b (0, 2)
  else if sameSome (b (0, 0)) (b (1, 1)) (b (2, 2)) then b (0, 0)
  else if sameSome (b (0, 2)) (b (1, 1)) (b (2, 0)) then b (0, 2)
  else none

/-- `_is_board_full`: no `None` cell remains. -/
def mis_board_full (b : MBoard) : Bool :=
  decide (∀ q : Backend.Pos, b q ≠ none)

/-- Rejection message for an out-of-bounds position. -/
def invalidPositionMsg : String :=
  "Invalid position. Row and column must be between 0-2."

/-- Rejection message for an occupied cell. -/
def occupiedMsg : String := "Position already occupied."

/-- Rejection message when the game is already over (the f-string
interpolates the current status). -/
def gameOverMsg (s : MStatus) : String :=
  "Game is over. Status: " ++ statusStr s

/-- Message of a successful move. -/
def moveSuccessMsg : String := "Move successful"

/-- The result dictionary of `make_move`: either the rejection shape
(`success: False`, a message, and the board snapshot) or the success
shape (`success: True`, message, board snapshot, removed piece, the new
current player, the new game status, and the winner if any). -/
inductive MResult where
  | failure (message : String) (board : MBoard)
  | ok (message : String) (board : MBoard) (removed_piece : Option Backend.Pos)
      (current_player : MPlayer) (game_status : MStatus)
      (winner : Option MPlayer)

/-- `True` exactly on the success shape (the `success` key). -/
def MResult.isOk : MResult → Bool
  | MResult.failure _ _ => false
  | MResult.ok _ _ _ _ _ _ => true

/-- The successful-move path of `make_move` with `q` the validated
target: place the piece, append to the mover's history, apply the
infinite rule (pop the oldest when the history now exceeds 3), evaluate
winner then board-full, switch the player, and return the structured
result. -/
def mapplyMove (g : MSt) (q : Backend.Pos) : MResult × MSt :=
  let b1 := msetCell g.board q (some g.current_player)
  let h1 := movesOf g g.current_player ++ [q]
  let removed : Option Backend.Pos :=
    if 3 < h1.length then h1.head? else none
  let b2 :=
    if 3 < h1.length then
      match h1 with
      | [] => b1
      | old :: _ => msetCell b1 old none
    else b1
  let h2 := if 3 < h1.length then h1.tail else h1
  let winner := mcheck_winner b2
  let status :=
    match winner with
    | some MPlayer.X => MStatus.X_wins
    | some MPlayer.Y => MStatus.Y_wins
    | none => if mis_board_full b2 then MStatus.draw else g.game_status
  let np := if g.current_player = MPlayer.X then MPlayer.Y else MPlayer.X
  let g' : MSt :=
    { board := b2
      moves_X := if g.current_player = MPlayer.X then h2 else g.moves_X
      moves_Y := if g.current_player = MPlayer.X then g.moves_Y else h2
      current_player := np
      game_status := status
      total_moves := g.total_moves + 1 }
  (MResult.ok moveSuccessMsg b2 removed np status winner, g')

/-- `make_move` of `game_logic_main.py`: validate position, occupancy,
then game status; on success run `mapplyMove`. -/
def mmake_move (g : MSt) (row col : Int) : MResult × MSt :=
  if ¬ mis_valid_position row col then
    (MResult.failure invalidPositionMsg g.board, g)
  else
    let q : Backend.Pos := (Backend.toFin3 row, Backend.toFin3 col)
    if (g.board q).isSome then
      (MResult.failure occupiedMsg g.board, g)
    else if g.game_status ≠ MStatus.ongoing then
      (MResult.failure (gameOverMsg g.game_status) g.board, g)
    else mapplyMove g q

/-- `reset_game`: restore the initial state. -/
def mreset (_g : MSt) : MSt := minit

/-- Apply one integer move attempt, keeping the state. -/
def mstep (g : MSt) (mv : Int × Int) : MSt := (mmake_move g mv.1 mv.2).2

/-- Run a list of integer move attempts from the initial state. -/
def mrunMoves (l : List (Int × Int)) : MSt := l.foldl mstep minit

end MainImpl

section BasicLemmas

open Backend MainImpl

/-- Reading the cell just written. -/
theorem setCell_same (b : Board) (q : Pos) (v : Player) :
    setCell b q v q = v := by
  simp [setCell]

/-- Reading an untouched cell. -/
theorem setCell_other (b : Board) (q q' : Pos) (v : Player) (h : q' ≠ q) :
    setCell b q v q' = b q' := by
  simp [setCell, h]

/-- A state built by running integer move attempts is reachable. -/
theorem runMoves_reachable (l : List (Int × Int)) : Reachable (runMoves l) := by
  refine ⟨l.map (fun mv => Op.move mv.1 mv.2), ?_⟩
  show (l.map (fun mv => Op.move mv.1 mv.2)).foldl applyOp initSt = l.foldl step initSt
  generalize initSt = g
  induction l generalizing g with
  | nil => rfl
  | cons mv tl ih => simp [applyOp, step, ih]

/-- A rejected backend move returns `false` and the unchanged state. -/
theorem make_move_invalid (g : GameSt) (row col : Int)
    (h : is_valid_move g row col = false) :
    make_move g row col = (false, g) := by
  simp [make_move, h]

/-- An accepted backend move returns `true` and the mutated state. -/
theorem make_move_valid (g : GameSt) (row col : Int)
    (h : is_valid_move g row col = true) :
    make_move g row col = (true, applyMove g (toFin3 row) (toFin3 col)) := by
  simp [make_move, h]

/-- The backend validity test, as the conjunction it computes. -/
theorem is_valid_move_iff (g : GameSt) (row col : Int) :
    is_valid_move g row col = true ↔
      g.state = GameState.IN_PROGRESS ∧ inBounds row col = true ∧
        g.board (toFin3 row, toFin3 col) = Player.EMPTY := by
  unfold is_valid_move
  split <;> rename_i h1
  · simp [h1]
  · split <;> rename_i h2
    · simp [h2]
    · split <;> rename_i h3
      · simp [h3]
      · push_neg at h1 h2 h3
        simp [h1, h2, h3]

end BasicLemmas

section ConcreteStates

open Backend MainImpl

/-- Five moves after which X has completed row 0: X plays (0,0), (0,1),
(0,2) while O plays (1,0), (1,1). -/
def winOps : List (Int × Int) := [(0, 0), (1, 0), (0, 1), (1, 1), (0, 2)]

/-- The backend state reached by `winOps` (outcome `X_WINS`). -/
def winSt : GameSt := runMoves winOps

/-- Six quiet moves: X holds (0,0), (0,1), (1,2) and O holds (1,1),
(2,1), (0,2); nobody has a line and both histories have length 3. -/
def fullHistOps : List (Int × Int) := [(0, 0), (1, 1), (0, 1), (2, 1), (1, 2), (0, 2)]

/-- The backend state reached by `fullHistOps`. -/
def fullHistSt : GameSt := runMoves fullHistOps

end ConcreteStates

section ClaimC4

open Backend MainImpl

/-- Any result of `mmake_move` whose `success` flag is `False` comes
with an unchanged state. -/
theorem mmake_move_not_ok_eq (m : MSt) (row col : Int)
    (hm : ((mmake_move m row col).1).isOk = false) :
    (mmake_move m row col).2 = m := by
  unfold mmake_move at hm ⊢
  dsimp only at hm ⊢
  split_ifs at hm ⊢ <;> first | rfl | simp [mapplyMove, MResult.isOk] at hm

/-- **C4.** A rejected move attempt (game concluded, out of bounds, or
cell occupied) leaves the whole game state unchanged in both engine
implementations: the backend `make_move` returns the state untouched
whenever it reports `False`, and `game_logic_main.py`'s `make_move`
returns the state untouched whenever the result's success flag is
`False`; validation fully precedes mutation, so no move is partially
applied. -/
theorem rejected_move_leaves_state_unchanged
    (g : GameSt) (m : MSt) (row col row' col' : Int)
    (hb : (make_move g row col).1 = false)
    (hm : ((mmake_move m row' col').1).isOk = false) :
    (make_move g row col).2 = g ∧ (mmake_move m row' col').2 = m := by
  constructor
  · cases hv : is_valid_move g row col with
    | false => simp [make_move, hv]
    | true => simp [make_move, hv] at hb
  · exact mmake_move_not_ok_eq m row' col' hm

/-- Witness for C4: the out-of-bounds attempt (3,0) on the fresh state
is rejected by both engines and changes nothing. -/
theorem rejected_move_leaves_state_unchanged_witness :
    (make_move initSt 3 0).2 = initSt ∧ (mmake_move minit 3 0).2 = minit :=
  rejected_move_leaves_state_unchanged initSt minit 3 0 3 0 (by decide) (by decide)

end ClaimC4

section ClaimC5

open Backend

/-- **C5.** Once the backend outcome is `X_WINS`, `O_WINS` or `DRAW`
(anything but `IN_PROGRESS`), every move attempt returns `False` with
the state — and in particular the outcome — completely unchanged; and
`reset` unconditionally rebuilds the initial state (outcome
`IN_PROGRESS`) from any state whatsoever, which is the only operation
that leaves a concluded outcome. -/
theorem concluded_outcome_absorbing (g : GameSt) (row col : Int)
    (h : g.state ≠ GameState.IN_PROGRESS) :
    make_move g row col = (false, g) ∧
    (make_move g row col).2.state = g.state ∧
    ∀ g' : GameSt, reset g' = initSt := by
  have hv : is_valid_move g row col = false := by
    simp [is_valid_move, h]
  refine ⟨make_move_invalid g row col hv, ?_, fun _ => rfl⟩
  rw [make_move_invalid g row col hv]

/-- Witness for C5: after X completes row 0 the state is `X_WINS`; the
further attempt (1,2) is rejected with the state unchanged, and `reset`
restores the initial state. -/
theorem concluded_outcome_absorbing_witness :
    winSt.state ≠ GameState.IN_PROGRESS ∧
      (make_move winSt 1 2 = (false, winSt) ∧
        (make_move winSt 1 2).2.state = winSt.state ∧
        ∀ g' : GameSt, reset g' = initSt) :=
  ⟨by decide, concluded_outcome_absorbing winSt 1 2 (by decide)⟩

end ClaimC5

section ClaimC6

open Backend

/-- **C6.** The current player starts as X, and every successful move —
unconditionally, even one that just concluded the game — switches the
current player to the other symbol (`Player.O` when the mover was
`Player.X`, `Player.X` otherwise), so successful moves strictly
alternate the mover. -/
theorem current_player_alternation :
    initSt.current_player = Player.X ∧
    ∀ (g : GameSt) (row col : Int),
      (make_move g row col).1 = true →
      (make_move g row col).2.current_player = otherPlayer g.current_player := by
  refine ⟨rfl, fun g row col h => ?_⟩
  cases hv : is_valid_move g row col with
  | false => simp [make_move, hv] at h
  | true => simp [make_move, hv, applyMove, otherPlayer]

/-- Witness for C6: the opening move (0,0) succeeds and switches the
current player from X to O; moreover the very move that concludes the
game (X's third row-0 mark) still switches the player to O. -/
theorem current_player_alternation_witness :
    initSt.current_player = Player.X ∧
      ((make_move initSt 0 0).1 = true ∧
        (make_move initSt 0 0).2.current_player = otherPlayer initSt.current_player) ∧
      ((make_move (runMoves [(0, 0), (1, 0), (0, 1), (1, 1)]) 0 2).1 = true ∧
        (make_move (runMoves [(0, 0), (1, 0), (0, 1), (1, 1)]) 0 2).2.state =
          GameState.X_WINS ∧
        (make_move (runMoves [(0, 0), (1, 0), (0, 1), (1, 1)]) 0 2).2.current_player =
          otherPlayer (runMoves [(0, 0), (1, 0), (0, 1), (1, 1)]).current_player) :=
  ⟨current_player_alternation.1,
    ⟨by decide, current_player_alternation.2 initSt 0 0 (by decide)⟩,
    ⟨by decide, by decide,
      current_player_alternation.2 (runMoves [(0, 0), (1, 0), (0, 1), (1, 1)]) 0 2
        (by decide)⟩⟩

end ClaimC6

namespace Backend

/-- The reachable-state invariant of the backend engine: each history
has at most 3 entries and no duplicates, the cells holding a player's
symbol are exactly that player's history entries, the current player is
a real player, and while the game is in progress nobody has a completed
line. -/
structure Inv (g : GameSt) : Prop where
  lenX : g.move_history_x.length ≤ 3
  lenO : g.move_history_o.length ≤ 3
  nodupX : g.move_history_x.Nodup
  nodupO : g.move_history_o.Nodup
  cellX : ∀ q : Pos, g.board q = Player.X ↔ q ∈ g.move_history_x
  cellO : ∀ q : Pos, g.board q = Player.O ↔ q ∈ g.move_history_o
  player : g.current_player = Player.X ∨ g.current_player = Player.O
  noline : g.state = GameState.IN_PROGRESS →
    check_win g.board Player.X = false ∧ check_win g.board Player.O = false

/-- The initial state satisfies the invariant. -/
theorem inv_initSt : Inv initSt := by
  constructor <;> decide

/-- The win check only looks at which cells hold the player's symbol. -/
theorem check_win_congr (b b' : Board) (p : Player)
    (h : ∀ q : Pos, b q = p ↔ b' q = p) :
    check_win b p = check_win b' p := by
  have hb : ∀ q : Pos, (b q == p) = (b' q == p) := by
    intro q
    by_cases hq : b q = p
    · simp [hq, (h q).mp hq]
    · have hq' : ¬ b' q = p := fun hp => hq ((h q).mpr hp)
      simp [hq, hq']
  simp only [check_win, hb]

/-- Effect of one validated placement on the mover's pieces and the
opponent's pieces: `hist` is the mover's history, `opp` the opponent's,
`p` the mover's symbol, `o` the opponent's, `q` the (empty) target
cell. After the vanish rule and the placement, the mover's history
still has at most 3 distinct entries matching exactly the cells holding
`p`, and the opponent's cells are untouched. -/
theorem vanishCore (b : Board) (hist opp : List Pos) (p o : Player) (q : Pos)
    (hpe : p ≠ Player.EMPTY) (hoe : o ≠ Player.EMPTY) (hpo : p ≠ o)
    (hlen : hist.length ≤ 3) (hnd : hist.Nodup)
    (hcell : ∀ q' : Pos, b q' = p ↔ q' ∈ hist)
    (hocell : ∀ q' : Pos, b q' = o ↔ q' ∈ opp)
    (hq : b q = Player.EMPTY) :
    (trimHist hist ++ [q]).length ≤ 3 ∧ (trimHist hist ++ [q]).Nodup ∧
    (∀ q' : Pos, setCell (trimBoard b hist) q p q' = p ↔ q' ∈ trimHist hist ++ [q]) ∧
    (∀ q' : Pos, setCell (trimBoard b hist) q p q' = o ↔ q' ∈ opp) := by
  have hqhist : q ∉ hist := by
    intro hmem
    have hbp : b q = p := (hcell q).mpr hmem
    rw [hq] at hbp
    exact hpe hbp.symm
  have hqopp : q ∉ opp := by
    intro hmem
    have hbo : b q = o := (hocell q).mpr hmem
    rw [hq] at hbo
    exact hoe hbo.symm
  by_cases h3 : 3 ≤ hist.length
  · obtain ⟨a, rest, rfl⟩ : ∃ a rest, hist = a :: rest := by
      cases hist with
      | nil => simp at h3
      | cons a rest => exact ⟨a, rest, rfl⟩
    have hba : b a = p := (hcell a).mpr (List.mem_cons_self a rest)
    have haq : a ≠ q := by
      intro h
      rw [h, hq] at hba
      exact hpe hba.symm
    rw [List.nodup_cons] at hnd
    obtain ⟨hanr, hndr⟩ := hnd
    have hqrest : q ∉ rest := fun h => hqhist (List.mem_cons_of_mem a h)
    have htb : trimBoard b (a :: rest) = setCell b a Player.EMPTY := by
      unfold trimBoard
      rw [if_pos h3]
    have hth : trimHist (a :: rest) = rest := by
      unfold trimHist
      rw [if_pos h3]
      rfl
    rw [htb, hth]
    refine ⟨?_, ?_, ?_, ?_⟩
    · simp only [List.length_cons] at hlen
      simp only [List.length_append, List.length_singleton]
      omega
    · simp [List.nodup_append, hndr, hqrest]
    · intro q'
      by_cases hq'q : q' = q
      · subst hq'q
        simp [setCell]
      · by_cases hq'a : q' = a
        · simp [setCell, hq'a, haq, Ne.symm hpe, hanr]
        · have h := hcell q'
          simp [hq'a] at h
          simp [setCell, hq'q, hq'a, h]
    · intro q'
      by_cases hq'q : q' = q
      · subst hq'q
        simp [setCell, hpo, hqopp]
      · by_cases hq'a : q' = a
        · have hao : ¬ a ∈ opp := by
            intro hmem
            have hco := (hocell a).mpr hmem
            rw [hba] at hco
            exact hpo hco
          simp [setCell, hq'a, haq, Ne.symm hoe, hao]
        · have h := hocell q'
          simp [setCell, hq'q, hq'a, h]
  · have htb : trimBoard b hist = b := by
      unfold trimBoard
      rw [if_neg h3]
    have hth : trimHist hist = hist := by
      unfold trimHist
      rw [if_neg h3]
    rw [htb, hth]
    refine ⟨?_, ?_, ?_, ?_⟩
    · simp only [List.length_append, List.length_singleton]
      omega
    · simp [List.nodup_append, hnd, hqhist]
    · intro q'
      by_cases hq'q : q' = q
      · subst hq'q
        simp [setCell]
      · have h := hcell q'
        simp [setCell, hq'q, h]
    · intro q'
      by_cases hq'q : q' = q
      · subst hq'q
        simp [setCell, hpo, hqopp]
      · have h := hocell q'
        simp [setCell, hq'q, h]

/-- `applyMove` written out when X is the mover. -/
theorem applyMove_X (g : GameSt) (r c : Fin 3) (hp : g.current_player = Player.X) :
    applyMove g r c =
      { board := setCell (trimBoard g.board g.move_history_x) (r, c) Player.X
        move_history_x := trimHist g.move_history_x ++ [(r, c)]
        move_history_o := g.move_history_o
        current_player := Player.O
        state :=
          if check_win (setCell (trimBoard g.board g.move_history_x) (r, c) Player.X)
              Player.X then GameState.X_WINS
          else if check_draw
              (setCell (trimBoard g.board g.move_history_x) (r, c) Player.X) then
            GameState.DRAW
          else g.state } := by
  simp [applyMove, hp]

/-- `applyMove` written out when O is the mover. -/
theorem applyMove_O (g : GameSt) (r c : Fin 3) (hp : g.current_player = Player.O) :
    applyMove g r c =
      { board := setCell (trimBoard g.board g.move_history_o) (r, c) Player.O
        move_history_x := g.move_history_x
        move_history_o := trimHist g.move_history_o ++ [(r, c)]
        current_player := Player.X
        state :=
          if check_win (setCell (trimBoard g.board g.move_history_o) (r, c) Player.O)
              Player.O then GameState.O_WINS
          else if check_draw
              (setCell (trimBoard g.board g.move_history_o) (r, c) Player.O) then
            GameState.DRAW
          else g.state } := by
  simp [applyMove, hp]

/-- A validated move preserves the invariant. -/
theorem inv_applyMove (g : GameSt) (row col : Int)
    (hinv : Inv g) (hv : is_valid_move g row col = true) :
    Inv (applyMove g (toFin3 row) (toFin3 col)) := by
  obtain ⟨hst, _hbnd, hemp⟩ := (is_valid_move_iff g row col).mp hv
  rcases hinv.player with hp | hp
  · rw [applyMove_X g _ _ hp]
    obtain ⟨hl, hn, hcp, hco⟩ :=
      vanishCore g.board g.move_history_x g.move_history_o Player.X Player.O
        (toFin3 row, toFin3 col) (by decide) (by decide) (by decide)
        hinv.lenX hinv.nodupX hinv.cellX hinv.cellO hemp
    refine ⟨hl, hinv.lenO, hn, hinv.nodupO, hcp, hco, Or.inr rfl, ?_⟩
    intro h'
    simp only at h'
    split_ifs at h' with hcw hcd
    rw [Bool.not_eq_true] at hcw
    dsimp only
    refine ⟨hcw, ?_⟩
    have hcongr : ∀ q' : Pos,
        setCell (trimBoard g.board g.move_history_x) (toFin3 row, toFin3 col)
          Player.X q' = Player.O ↔ g.board q' = Player.O := by
      intro q'
      rw [hco q', hinv.cellO q']
    rw [check_win_congr _ _ _ hcongr]
    exact (hinv.noline hst).2
  · rw [applyMove_O g _ _ hp]
    obtain ⟨hl, hn, hcp, hco⟩ :=
      vanishCore g.board g.move_history_o g.move_history_x Player.O Player.X
        (toFin3 row, toFin3 col) (by decide) (by decide) (by decide)
        hinv.lenO hinv.nodupO hinv.cellO hinv.cellX hemp
    refine ⟨hinv.lenX, hl, hinv.nodupX, hn, hco, hcp, Or.inl rfl, ?_⟩
    intro h'
    simp only at h'
    split_ifs at h' with hcw hcd
    rw [Bool.not_eq_true] at hcw
    dsimp only
    have hcongr : ∀ q' : Pos,
        setCell (trimBoard g.board g.move_history_o) (toFin3 row, toFin3 col)
          Player.O q' = Player.X ↔ g.board q' = Player.X := by
      intro q'
      rw [hco q', hinv.cellX q']
    refine ⟨?_, hcw⟩
    rw [check_win_congr _ _ _ hcongr]
    exact (hinv.noline hst).1

/-- Any move attempt preserves the invariant. -/
theorem inv_make_move (g : GameSt) (row col : Int) (hinv : Inv g) :
    Inv (make_move g row col).2 := by
  cases hv : is_valid_move g row col with
  | false =>
    rw [make_move_invalid g row col hv]
    exact hinv
  | true =>
    rw [make_move_valid g row col hv]
    exact inv_applyMove g row col hinv hv

/-- Running operations from an invariant state keeps the invariant. -/
theorem inv_foldl (ops : List Op) (g : GameSt) (hinv : Inv g) :
    Inv (ops.foldl applyOp g) := by
  induction ops generalizing g with
  | nil => exact hinv
  | cons op tl ih =>
    simp only [List.foldl_cons]
    apply ih
    cases op with
    | move row col => exact inv_make_move g row col hinv
    | reset => exact inv_initSt

/-- Every reachable state satisfies the invariant. -/
theorem inv_reachable (g : GameSt) (h : Reachable g) : Inv g := by
  obtain ⟨ops, rfl⟩ := h
  exact inv_foldl ops initSt inv_initSt

/-- When the history has fewer than 3 entries the vanish rule leaves
the board alone. -/
theorem trimBoard_of_lt (b : Board) (h : List Pos) (hlt : h.length < 3) :
    trimBoard b h = b := by
  unfold trimBoard
  rw [if_neg (by omega)]

/-- When the history has fewer than 3 entries the vanish rule leaves
the history alone. -/
theorem trimHist_of_lt (h : List Pos) (hlt : h.length < 3) :
    trimHist h = h := by
  unfold trimHist
  rw [if_neg (by omega)]

/-- With a full history the vanish rule clears the head's cell. -/
theorem trimBoard_of_full (b : Board) (old : Pos) (rest : List Pos)
    (h3 : 3 ≤ (old :: rest).length) :
    trimBoard b (old :: rest) = setCell b old Player.EMPTY := by
  unfold trimBoard
  rw [if_pos h3]

/-- With a full history the vanish rule drops the head entry. -/
theorem trimHist_of_full (old : Pos) (rest : List Pos)
    (h3 : 3 ≤ (old :: rest).length) :
    trimHist (old :: rest) = rest := by
  unfold trimHist
  rw [if_pos h3]
  rfl

/-- The board and the two histories produced by `applyMove`, expressed
through the mover's history. -/
theorem applyMove_shape (g : GameSt) (r c : Fin 3) :
    (applyMove g r c).board =
      setCell (trimBoard g.board (histOf g g.current_player)) (r, c)
        g.current_player ∧
    histOf (applyMove g r c) g.current_player =
      trimHist (histOf g g.current_player) ++ [(r, c)] ∧
    histOf (applyMove g r c) (otherPlayer g.current_player) =
      histOf g (otherPlayer g.current_player) := by
  by_cases hp : g.current_player = Player.X
  · simp [applyMove, histOf, otherPlayer, hp]
  · simp [applyMove, histOf, otherPlayer, hp]

/-- Under the invariant, a cell holds the mover's symbol exactly when
it belongs to the mover's history. -/
theorem inv_cell_mover (g : GameSt) (hinv : Inv g) (p : Player)
    (hp : p = Player.X ∨ p = Player.O) (q : Pos) :
    g.board q = p ↔ q ∈ histOf g p := by
  rcases hp with rfl | rfl
  · simpa [histOf] using hinv.cellX q
  · simpa [histOf] using hinv.cellO q

end Backend

section ClaimC2

open Backend

/-- **C2.** In every state reachable from the initial state by move and
reset operations, the cells holding X's symbol are exactly the
coordinates in X's move history and likewise for O (no orphaned marks,
no history entries pointing at empty or foreign cells), and each
history length is between 0 and 3. -/
theorem board_history_consistency (g : GameSt) (h : Reachable g) :
    (∀ q : Pos,
      (g.board q = Player.X ↔ q ∈ g.move_history_x) ∧
      (g.board q = Player.O ↔ q ∈ g.move_history_o)) ∧
    g.move_history_x.length ≤ 3 ∧ g.move_history_o.length ≤ 3 := by
  have hinv := inv_reachable g h
  exact ⟨fun q => ⟨hinv.cellX q, hinv.cellO q⟩, hinv.lenX, hinv.lenO⟩

/-- Witness for C2: the six-move state `fullHistSt`, where both
histories have length 3. -/
theorem board_history_consistency_witness :
    (∀ q : Pos,
      (fullHistSt.board q = Player.X ↔ q ∈ fullHistSt.move_history_x) ∧
      (fullHistSt.board q = Player.O ↔ q ∈ fullHistSt.move_history_o)) ∧
    fullHistSt.move_history_x.length ≤ 3 ∧
    fullHistSt.move_history_o.length ≤ 3 :=
  board_history_consistency fullHistSt (runMoves_reachable fullHistOps)

end ClaimC2

section ClaimC1

open Backend

/-- **C1.** In a reachable in-progress state, a successful move to an
in-range empty cell applies the vanish rule exactly: if the mover's
history had length 3, the head (oldest) entry is removed, exactly that
cell is cleared back to `EMPTY` (the final board is the old board with
the head cell cleared and the target cell marked), the new coordinate
is appended, and the history stays at length 3; if the history had
length < 3, nothing is removed and the history grows by exactly one. -/
theorem vanish_rule_on_move (g : GameSt) (row col : Int)
    (hreach : Reachable g)
    (hst : g.state = GameState.IN_PROGRESS)
    (hbnd : inBounds row col = true)
    (hemp : g.board (toFin3 row, toFin3 col) = Player.EMPTY) :
    (make_move g row col).1 = true ∧
    ((histOf g g.current_player).length = 3 →
      ∃ old rest, histOf g g.current_player = old :: rest ∧
        (make_move g row col).2.board old = Player.EMPTY ∧
        (make_move g row col).2.board =
          setCell (setCell g.board old Player.EMPTY) (toFin3 row, toFin3 col)
            g.current_player ∧
        histOf (make_move g row col).2 g.current_player =
          rest ++ [(toFin3 row, toFin3 col)] ∧
        (histOf (make_move g row col).2 g.current_player).length = 3) ∧
    ((histOf g g.current_player).length < 3 →
      (make_move g row col).2.board =
        setCell g.board (toFin3 row, toFin3 col) g.current_player ∧
      histOf (make_move g row col).2 g.current_player =
        histOf g g.current_player ++ [(toFin3 row, toFin3 col)] ∧
      (histOf (make_move g row col).2 g.current_player).length =
        (histOf g g.current_player).length + 1) := by
  have hinv := inv_reachable g hreach
  have hv : is_valid_move g row col = true :=
    (is_valid_move_iff g row col).mpr ⟨hst, hbnd, hemp⟩
  rw [make_move_valid g row col hv]
  obtain ⟨hb2, hh2, _⟩ := applyMove_shape g (toFin3 row) (toFin3 col)
  refine ⟨rfl, ?_, ?_⟩
  · intro h3
    obtain ⟨old, rest, hH⟩ : ∃ old rest, histOf g g.current_player = old :: rest := by
      cases hcase : histOf g g.current_player with
      | nil => rw [hcase] at h3; simp at h3
      | cons a tl => exact ⟨a, tl, rfl⟩
    have hmem : old ∈ histOf g g.current_player := by
      rw [hH]; exact List.mem_cons_self old rest
    have hbo : g.board old = g.current_player :=
      (inv_cell_mover g hinv g.current_player hinv.player old).mpr hmem
    have hne : old ≠ (toFin3 row, toFin3 col) := by
      intro h
      rw [h, hemp] at hbo
      rcases hinv.player with hp | hp <;> rw [hp] at hbo <;> exact absurd hbo (by decide)
    have hlen3 : 3 ≤ (old :: rest).length := by rw [← hH]; omega
    have htb : trimBoard g.board (histOf g g.current_player) =
        setCell g.board old Player.EMPTY := by
      rw [hH]; exact trimBoard_of_full g.board old rest hlen3
    have hth : trimHist (histOf g g.current_player) = rest := by
      rw [hH]; exact trimHist_of_full old rest hlen3
    refine ⟨old, rest, hH, ?_, ?_, ?_, ?_⟩
    · show (applyMove g (toFin3 row) (toFin3 col)).board old = Player.EMPTY
      rw [hb2, htb, setCell_other _ _ _ _ hne, setCell_same]
    · show (applyMove g (toFin3 row) (toFin3 col)).board = _
      rw [hb2, htb]
    · show histOf (applyMove g (toFin3 row) (toFin3 col)) g.current_player = _
      rw [hh2, hth]
    · show (histOf (applyMove g (toFin3 row) (toFin3 col)) g.current_player).length = 3
      rw [hh2, hth]
      have : (old :: rest).length = 3 := by rw [← hH]; exact h3
      simp at this ⊢
      omega
  · intro hlt
    have htb : trimBoard g.board (histOf g g.current_player) = g.board :=
      trimBoard_of_lt g.board _ hlt
    have hth : trimHist (histOf g g.current_player) = histOf g g.current_player :=
      trimHist_of_lt _ hlt
    refine ⟨?_, ?_, ?_⟩
    · show (applyMove g (toFin3 row) (toFin3 col)).board = _
      rw [hb2, htb]
    · show histOf (applyMove g (toFin3 row) (toFin3 col)) g.current_player = _
      rw [hh2, hth]
    · show (histOf (applyMove g (toFin3 row) (toFin3 col)) g.current_player).length = _
      rw [hh2, hth]
      simp

/-- Witness for C1: from `fullHistSt` (X's history is
[(0,0),(0,1),(1,2)], length 3, game in progress) the move (2,0)
succeeds, erases (0,0), and keeps the history at length 3. -/
theorem vanish_rule_on_move_witness :
    (histOf fullHistSt fullHistSt.current_player).length = 3 ∧
    ((make_move fullHistSt 2 0).1 = true ∧
      ((histOf fullHistSt fullHistSt.current_player).length = 3 →
        ∃ old rest, histOf fullHistSt fullHistSt.current_player = old :: rest ∧
          (make_move fullHistSt 2 0).2.board old = Player.EMPTY ∧
          (make_move fullHistSt 2 0).2.board =
            setCell (setCell fullHistSt.board old Player.EMPTY)
              (toFin3 2, toFin3 0) fullHistSt.current_player ∧
          histOf (make_move fullHistSt 2 0).2 fullHistSt.current_player =
            rest ++ [(toFin3 2, toFin3 0)] ∧
          (histOf (make_move fullHistSt 2 0).2 fullHistSt.current_player).length = 3) ∧
      ((histOf fullHistSt fullHistSt.current_player).length < 3 →
        (make_move fullHistSt 2 0).2.board =
          setCell fullHistSt.board (toFin3 2, toFin3 0) fullHistSt.current_player ∧
        histOf (make_move fullHistSt 2 0).2 fullHistSt.current_player =
          histOf fullHistSt fullHistSt.current_player ++ [(toFin3 2, toFin3 0)] ∧
        (histOf (make_move fullHistSt 2 0).2 fullHistSt.current_player).length =
          (histOf fullHistSt fullHistSt.current_player).length + 1)) :=
  ⟨by decide,
    vanish_rule_on_move fullHistSt 2 0 (runMoves_reachable fullHistOps)
      (by decide) (by decide) (by decide)⟩

end ClaimC1

namespace Backend

/-- The set of occupied (non-empty) cells of a board. -/
def occupied (b : Board) : Finset Pos :=
  Finset.univ.filter (fun q => b q ≠ Player.EMPTY)

/-- Under the invariant, the number of occupied cells is the sum of the
two history lengths. -/
theorem occupied_card_of_inv (g : GameSt) (hinv : Inv g) :
    (occupied g.board).card =
      g.move_history_x.length + g.move_history_o.length := by
  have hsplit : occupied g.board =
      Finset.univ.filter (fun q => g.board q = Player.X) ∪
      Finset.univ.filter (fun q => g.board q = Player.O) := by
    ext q
    simp only [occupied, Finset.mem_filter, Finset.mem_union, Finset.mem_univ,
      true_and]
    cases hcase : g.board q <;> simp
  have hX : Finset.univ.filter (fun q => g.board q = Player.X) =
      g.move_history_x.toFinset := by
    ext q
    simp [hinv.cellX q]
  have hO : Finset.univ.filter (fun q => g.board q = Player.O) =
      g.move_history_o.toFinset := by
    ext q
    simp [hinv.cellO q]
  have hdisj : Disjoint
      (Finset.univ.filter (fun q => g.board q = Player.X))
      (Finset.univ.filter (fun q => g.board q = Player.O)) := by
    rw [Finset.disjoint_left]
    intro q hq1 hq2
    simp only [Finset.mem_filter] at hq1 hq2
    rw [hq1.2] at hq2
    exact absurd hq2.2 (by decide)
  rw [hsplit, Finset.card_union_of_disjoint hdisj, hX, hO,
    List.toFinset_card_of_nodup hinv.nodupX,
    List.toFinset_card_of_nodup hinv.nodupO]

/-- Under the invariant the board-full test of `_check_draw` fails. -/
theorem check_draw_false_of_inv (g : GameSt) (hinv : Inv g) :
    check_draw g.board = false := by
  by_contra h
  rw [Bool.not_eq_false, check_draw, decide_eq_true_iff] at h
  have hfull : occupied g.board = Finset.univ := by
    ext q
    simp [occupied, h q]
  have hcard : (occupied g.board).card ≤ 6 := by
    rw [occupied_card_of_inv g hinv]
    have h1 := hinv.lenX
    have h2 := hinv.lenO
    omega
  rw [hfull] at hcard
  have h9 : (Finset.univ : Finset Pos).card = 9 := by decide
  omega

/-- A move never makes the state `DRAW` when the source state satisfies
the invariant and is not already `DRAW`. -/
theorem noDraw_step (g : GameSt) (row col : Int) (hinv : Inv g)
    (hnd : g.state ≠ GameState.DRAW) :
    (make_move g row col).2.state ≠ GameState.DRAW := by
  cases hv : is_valid_move g row col with
  | false =>
    rw [make_move_invalid g row col hv]
    exact hnd
  | true =>
    rw [make_move_valid g row col hv]
    have hinv' : Inv (applyMove g (toFin3 row) (toFin3 col)) :=
      inv_applyMove g row col hinv hv
    have hcdraw : check_draw (applyMove g (toFin3 row) (toFin3 col)).board = false :=
      check_draw_false_of_inv _ hinv'
    obtain ⟨hst, _, _⟩ := (is_valid_move_iff g row col).mp hv
    rcases hinv.player with hp | hp
    · rw [applyMove_X g _ _ hp] at hcdraw ⊢
      dsimp only at hcdraw ⊢
      split_ifs with h1 h2
      · simp
      · simp [h2] at hcdraw
      · simp [hst]
    · rw [applyMove_O g _ _ hp] at hcdraw ⊢
      dsimp only at hcdraw ⊢
      split_ifs with h1 h2
      · simp
      · simp [h2] at hcdraw
      · simp [hst]

/-- Running operations from an invariant non-`DRAW` state never makes
the state `DRAW`. -/
theorem noDraw_foldl (ops : List Op) (g : GameSt) (hinv : Inv g)
    (hnd : g.state ≠ GameState.DRAW) :
    (ops.foldl applyOp g).state ≠ GameState.DRAW := by
  induction ops generalizing g with
  | nil => exact hnd
  | cons op tl ih =>
    simp only [List.foldl_cons]
    cases op with
    | move row col =>
      exact ih _ (inv_make_move g row col hinv) (noDraw_step g row col hinv hnd)
    | reset =>
      refine ih _ inv_initSt ?_
      show initSt.state ≠ GameState.DRAW
      decide

end Backend

section ClaimC10

open Backend

/-- **C10.** In every reachable state the number of occupied cells
equals the sum of the two players' history lengths, hence is at most 6
on the 9-cell board; therefore the board-full check of `_check_draw`
never succeeds on a reachable board and the `DRAW` outcome is
unreachable through play. -/
theorem draw_unreachable (g : GameSt) (h : Reachable g) :
    (occupied g.board).card =
      g.move_history_x.length + g.move_history_o.length ∧
    (occupied g.board).card ≤ 6 ∧
    check_draw g.board = false ∧
    g.state ≠ GameState.DRAW := by
  have hinv := inv_reachable g h
  have hcount := occupied_card_of_inv g hinv
  refine ⟨hcount, ?_, check_draw_false_of_inv g hinv, ?_⟩
  · rw [hcount]
    have h1 := hinv.lenX
    have h2 := hinv.lenO
    omega
  · obtain ⟨ops, rfl⟩ := h
    exact noDraw_foldl ops initSt inv_initSt (by decide)

/-- Witness for C10: the six-move state `fullHistSt` has exactly 6
occupied cells, its draw check fails, and its outcome is not `DRAW`. -/
theorem draw_unreachable_witness :
    ((occupied fullHistSt.board).card =
      fullHistSt.move_history_x.length + fullHistSt.move_history_o.length ∧
    (occupied fullHistSt.board).card ≤ 6 ∧
    check_draw fullHistSt.board = false ∧
    fullHistSt.state ≠ GameState.DRAW) ∧
    (occupied fullHistSt.board).card = 6 :=
  ⟨draw_unreachable fullHistSt (runMoves_reachable fullHistOps), by decide⟩

end ClaimC10

namespace Backend

/-- After a validated move, the mover's opponent has no completed line:
the opponent's cells are untouched by the move and the pre-move
invariant says nobody had a line while the game was in progress. -/
theorem opponent_no_line (g : GameSt) (row col : Int) (hinv : Inv g)
    (hv : is_valid_move g row col = true) :
    check_win (applyMove g (toFin3 row) (toFin3 col)).board
      (otherPlayer g.current_player) = false := by
  obtain ⟨hst, _, hemp⟩ := (is_valid_move_iff g row col).mp hv
  rcases hinv.player with hp | hp
  · rw [applyMove_X g _ _ hp]
    obtain ⟨_, _, _, hco⟩ :=
      vanishCore g.board g.move_history_x g.move_history_o Player.X Player.O
        (toFin3 row, toFin3 col) (by decide) (by decide) (by decide)
        hinv.lenX hinv.nodupX hinv.cellX hinv.cellO hemp
    have hcongr : ∀ q' : Pos,
        setCell (trimBoard g.board g.move_history_x) (toFin3 row, toFin3 col)
          Player.X q' = Player.O ↔ g.board q' = Player.O := by
      intro q'
      rw [hco q', hinv.cellO q']
    dsimp only
    rw [hp]
    rw [show otherPlayer Player.X = Player.O from rfl,
      check_win_congr _ _ _ hcongr]
    exact (hinv.noline hst).2
  · rw [applyMove_O g _ _ hp]
    obtain ⟨_, _, _, hco⟩ :=
      vanishCore g.board g.move_history_o g.move_history_x Player.O Player.X
        (toFin3 row, toFin3 col) (by decide) (by decide) (by decide)
        hinv.lenO hinv.nodupO hinv.cellO hinv.cellX hemp
    have hcongr : ∀ q' : Pos,
        setCell (trimBoard g.board g.move_history_o) (toFin3 row, toFin3 col)
          Player.O q' = Player.X ↔ g.board q' = Player.X := by
      intro q'
      rw [hco q', hinv.cellX q']
    dsimp only
    rw [hp]
    rw [show otherPlayer Player.O = Player.X from rfl,
      check_win_congr _ _ _ hcongr]
    exact (hinv.noline hst).1

end Backend

section ClaimC9

open Backend

/-- **C9.** After any successful move from a reachable state, the
opponent of the mover has no completed line on the resulting board, so
at most one player has three-in-a-row at the moment `_check_win` is
evaluated — only the mover can have a newly completed line, and the
scan order of rows, columns and diagonals cannot change the reported
winner. -/
theorem only_mover_has_line (g : GameSt) (row col : Int)
    (hreach : Reachable g) (hsucc : (make_move g row col).1 = true) :
    check_win (make_move g row col).2.board (otherPlayer g.current_player) = false ∧
    ¬ (check_win (make_move g row col).2.board Player.X = true ∧
       check_win (make_move g row col).2.board Player.O = true) := by
  have hinv := inv_reachable g hreach
  have hv : is_valid_move g row col = true := by
    cases hval : is_valid_move g row col with
    | true => rfl
    | false =>
      rw [make_move_invalid g row col hval] at hsucc
      simp at hsucc
  have hno := opponent_no_line g row col hinv hv
  rw [make_move_valid g row col hv]
  refine ⟨hno, ?_⟩
  rintro ⟨hX, hO⟩
  rcases hinv.player with hp | hp
  · rw [hp, show otherPlayer Player.X = Player.O from rfl] at hno
    rw [hno] at hO
    cases hO
  · rw [hp, show otherPlayer Player.O = Player.X from rfl] at hno
    rw [hno] at hX
    cases hX

/-- Witness for C9: X's winning fifth move in `winOps` leaves O
line-free, and not both players have a line. -/
theorem only_mover_has_line_witness :
    ((make_move (runMoves [(0, 0), (1, 0), (0, 1), (1, 1)]) 0 2).1 = true) ∧
    (check_win (make_move (runMoves [(0, 0), (1, 0), (0, 1), (1, 1)]) 0 2).2.board
        (otherPlayer (runMoves [(0, 0), (1, 0), (0, 1), (1, 1)]).current_player) =
      false ∧
    ¬ (check_win
        (make_move (runMoves [(0, 0), (1, 0), (0, 1), (1, 1)]) 0 2).2.board
          Player.X = true ∧
       check_win
        (make_move (runMoves [(0, 0), (1, 0), (0, 1), (1, 1)]) 0 2).2.board
          Player.O = true)) :=
  ⟨by decide,
    only_mover_has_line (runMoves [(0, 0), (1, 0), (0, 1), (1, 1)]) 0 2
      (runMoves_reachable [(0, 0), (1, 0), (0, 1), (1, 1)]) (by decide)⟩

end ClaimC9

namespace MainImpl

/-- The `message` field of a move result. -/
def MResult.message : MResult → String
  | MResult.failure m _ => m
  | MResult.ok m _ _ _ _ _ => m

end MainImpl

section ClaimC3

open Backend MainImpl

/-- Counterexample to C3: in `game_logic_main.py` the bounds check runs
before the game-concluded check. After X has won (`mrunMoves winOps`
has status `X_wins`), the out-of-bounds attempt (3,0) is reported with
the invalid-position message, not the game-over message. -/
theorem precondition_order_counterexample :
    (mrunMoves winOps).game_status = MStatus.X_wins ∧
    mis_valid_position 3 0 = false ∧
    (mmake_move (mrunMoves winOps) 3 0).1.message = invalidPositionMsg ∧
    invalidPositionMsg ≠ gameOverMsg (mrunMoves winOps).game_status := by
  refine ⟨by decide, by decide, rfl, by decide⟩

/-- **C3 (amended).** The `game_logic_main.py` engine checks its
preconditions in the order bounds, occupancy, game-concluded — first
failure wins, each failure with its own message — so an out-of-bounds
move on a concluded game is reported as out-of-bounds, not as
game-concluded; a move is accepted exactly when all three conditions
hold. The backend's `is_valid_move` tests game-in-progress, bounds and
cell-empty in source order but collapses them into a single
undifferentiated Boolean, accepting exactly the same conjunction. -/
theorem precondition_check_order (m : MSt) (g : GameSt) (row col : Int) :
    (mis_valid_position row col = false →
      (mmake_move m row col).1 = MResult.failure invalidPositionMsg m.board) ∧
    (mis_valid_position row col = true →
      (m.board (toFin3 row, toFin3 col)).isSome = true →
      (mmake_move m row col).1 = MResult.failure occupiedMsg m.board) ∧
    (mis_valid_position row col = true →
      (m.board (toFin3 row, toFin3 col)).isSome = false →
      m.game_status ≠ MStatus.ongoing →
      (mmake_move m row col).1 =
        MResult.failure (gameOverMsg m.game_status) m.board) ∧
    (mis_valid_position row col = true →
      (m.board (toFin3 row, toFin3 col)).isSome = false →
      m.game_status = MStatus.ongoing →
      ((mmake_move m row col).1).isOk = true) ∧
    (is_valid_move g row col = true ↔
      g.state = GameState.IN_PROGRESS ∧ inBounds row col = true ∧
        g.board (toFin3 row, toFin3 col) = Player.EMPTY) := by
  refine ⟨?_, ?_, ?_, ?_, is_valid_move_iff g row col⟩
  · intro h1
    simp [mmake_move, h1]
  · intro h1 h2
    simp [mmake_move, h1, h2]
  · intro h1 h2 h3
    simp [mmake_move, h1, h2, h3]
  · intro h1 h2 h3
    simp [mmake_move, mapplyMove, h1, h2, h3, MResult.isOk]

/-- Witness for the amended C3: each of the four outcomes at a concrete
input — bounds failure on a fresh game, occupied cell after one move,
game-over after X's win, and a plain success. -/
theorem precondition_check_order_witness :
    (mmake_move minit 3 0).1 = MResult.failure invalidPositionMsg minit.board ∧
    (mmake_move (mrunMoves [(0, 0)]) 0 0).1 =
      MResult.failure occupiedMsg (mrunMoves [(0, 0)]).board ∧
    (mmake_move (mrunMoves winOps) 2 2).1 =
      MResult.failure (gameOverMsg (mrunMoves winOps).game_status)
        (mrunMoves winOps).board ∧
    ((mmake_move minit 0 0).1).isOk = true :=
  ⟨(precondition_check_order minit initSt 3 0).1 (by decide),
    (precondition_check_order (mrunMoves [(0, 0)]) initSt 0 0).2.1 (by decide)
      (by decide),
    (precondition_check_order (mrunMoves winOps) initSt 2 2).2.2.1 (by decide)
      (by decide) (by decide),
    (precondition_check_order minit initSt 0 0).2.2.2.1 (by decide) (by decide)
      (by decide)⟩

end ClaimC3

section ClaimC7

open Backend MainImpl

/-- Counterexample to C7: the backend `make_move` of
`src/backend/game_logic.py` returns only a bare Boolean, so its three
rejection causes — out of bounds on a fresh game, occupied cell, game
already concluded — produce literally identical return values, with no
reason a caller could distinguish and no board snapshot. -/
theorem structured_result_counterexample :
    (make_move initSt 3 0).1 = false ∧
    (make_move (runMoves [(0, 0)]) 0 0).1 = false ∧
    (make_move winSt 2 2).1 = false ∧
    (make_move initSt 3 0).1 = (make_move (runMoves [(0, 0)]) 0 0).1 ∧
    (make_move initSt 3 0).1 = (make_move winSt 2 2).1 := by
  decide

/-- **C7 (amended).** `game_logic_main.py`'s `make_move` always returns
a structured result and never throws for integer input: on rejection it
carries the failure flag, the board snapshot, and one of three pairwise
distinct messages identifying the cause, with the state unchanged; on
success it carries the success flag, the updated board snapshot, the
coordinate removed this turn (or none), the new current player, the new
outcome, and the winning symbol if any. The backend `make_move`
instead returns only the bare success Boolean. -/
theorem structured_result (m : MSt) (row col : Int) :
    ((∃ msg, (mmake_move m row col).1 = MResult.failure msg m.board ∧
        (mmake_move m row col).2 = m ∧
        (msg = invalidPositionMsg ∨ msg = occupiedMsg ∨
          msg = gameOverMsg m.game_status)) ∨
      (∃ rp w, (mmake_move m row col).1 =
          MResult.ok moveSuccessMsg (mmake_move m row col).2.board rp
            (mmake_move m row col).2.current_player
            (mmake_move m row col).2.game_status w)) ∧
    (invalidPositionMsg ≠ occupiedMsg ∧
      (∀ s : MStatus, invalidPositionMsg ≠ gameOverMsg s) ∧
      (∀ s : MStatus, occupiedMsg ≠ gameOverMsg s)) ∧
    (∀ (g : GameSt), (make_move g row col).1 = true ∨
      (make_move g row col).1 = false) := by
  refine ⟨?_, ⟨by decide, by intro s; cases s <;> decide,
    by intro s; cases s <;> decide⟩, fun g => ?_⟩
  · by_cases h1 : mis_valid_position row col = true
    · by_cases h2 : (m.board (toFin3 row, toFin3 col)).isSome = true
      · refine Or.inl ⟨occupiedMsg, ?_, ?_, Or.inr (Or.inl rfl)⟩ <;>
          simp [mmake_move, h1, h2]
      · rw [Bool.not_eq_true] at h2
        by_cases h3 : m.game_status = MStatus.ongoing
        · refine Or.inr ?_
          simp only [mmake_move, h1, h2, h3]
          simp only [not_true, ne_eq, not_false_eq_true, if_false,
            Bool.false_eq_true, if_neg]
          exact ⟨_, _, rfl⟩
        · refine Or.inl ⟨gameOverMsg m.game_status, ?_, ?_, Or.inr (Or.inr rfl)⟩ <;>
            simp [mmake_move, h1, h2, h3]
    · rw [Bool.not_eq_true] at h1
      refine Or.inl ⟨invalidPositionMsg, ?_, ?_, Or.inl rfl⟩ <;>
        simp [mmake_move, h1]
  · cases (make_move g row col).1
    · exact Or.inr rfl
    · exact Or.inl rfl

end ClaimC7

namespace Bridge

open Backend MainImpl

/-- Rename a `game_logic_main.py` player to the backend symbol:
`Y` plays the role of `O`. -/
def liftP : MPlayer → Player
  | MPlayer.X => Player.X
  | MPlayer.Y => Player.O

/-- Rename a `game_logic_main.py` cell to the backend cell value. -/
def liftCell : Option MPlayer → Player
  | none => Player.EMPTY
  | some p => liftP p

/-- Rename a `game_logic_main.py` status to the backend game state. -/
def liftStatus : MStatus → GameState
  | MStatus.ongoing => GameState.IN_PROGRESS
  | MStatus.X_wins => GameState.X_WINS
  | MStatus.Y_wins => GameState.O_WINS
  | MStatus.draw => GameState.DRAW

/-- Correspondence between a `game_logic_main.py` state and a backend
state: same board (up to the `Y`/`O` renaming), same histories, same
current player and same outcome. -/
structure Corr (m : MSt) (g : GameSt) : Prop where
  board : ∀ q : Pos, g.board q = liftCell (m.board q)
  histX : g.move_history_x = m.moves_X
  histO : g.move_history_o = m.moves_Y
  player : g.current_player = liftP m.current_player
  status : g.state = liftStatus m.game_status

/-- The two initial states correspond. -/
theorem corr_init : Corr minit initSt := by
  constructor <;> first | rfl | (intro q; rfl)

/-- A lifted cell carries a player's symbol exactly when the original
cell carries the renamed symbol. -/
theorem liftCell_eq_liftP (v : Option MPlayer) (w : MPlayer) :
    liftCell v = liftP w ↔ v = some w := by
  cases v with
  | none => cases w <;> simp [liftCell, liftP]
  | some u => cases u <;> cases w <;> simp [liftCell, liftP]

/-- A lifted cell is empty exactly when the original cell is `None`. -/
theorem liftCell_eq_empty (v : Option MPlayer) :
    liftCell v = Player.EMPTY ↔ v = none := by
  cases v with
  | none => simp [liftCell]
  | some u => cases u <;> simp [liftCell, liftP]

/-- The two engines accept exactly the same move attempts from
corresponding states. -/
theorem accept_iff (m : MSt) (g : GameSt) (hc : Corr m g) (row col : Int) :
    is_valid_move g row col = true ↔
      (mis_valid_position row col = true ∧
        m.board (toFin3 row, toFin3 col) = none ∧
        m.game_status = MStatus.ongoing) := by
  rw [is_valid_move_iff]
  have hbounds : inBounds row col = mis_valid_position row col := rfl
  have hstate : g.state = GameState.IN_PROGRESS ↔ m.game_status = MStatus.ongoing := by
    rw [hc.status]
    cases m.game_status <;> simp [liftStatus]
  have hempty : g.board (toFin3 row, toFin3 col) = Player.EMPTY ↔
      m.board (toFin3 row, toFin3 col) = none := by
    rw [hc.board, liftCell_eq_empty]
  rw [hstate, hbounds, hempty]
  tauto

/-- `make_move`'s success flag in `game_logic_main.py`, as the
conjunction of its three validation checks. -/
theorem mmake_move_isOk_iff (m : MSt) (row col : Int) :
    ((mmake_move m row col).1).isOk = true ↔
      (mis_valid_position row col = true ∧
        m.board (toFin3 row, toFin3 col) = none ∧
        m.game_status = MStatus.ongoing) := by
  unfold mmake_move
  by_cases h1 : mis_valid_position row col = true
  · by_cases h2 : (m.board (toFin3 row, toFin3 col)).isSome = true
    · have h2' : m.board (toFin3 row, toFin3 col) ≠ none :=
        Option.isSome_iff_ne_none.mp h2
      simp [h1, h2, MResult.isOk, h2']
    · have h2n : m.board (toFin3 row, toFin3 col) = none := by
        cases hv : m.board (toFin3 row, toFin3 col) with
        | none => rfl
        | some u =>
          rw [hv] at h2
          simp at h2
      by_cases h3 : m.game_status = MStatus.ongoing
      · simp [h1, h2n, h3, mapplyMove, MResult.isOk]
      · simp [h1, h2n, h3, MResult.isOk]
  · simp [h1, MResult.isOk]

/-- The successful branch of `make_move` in `game_logic_main.py`. -/
theorem mmake_move_success_eq (m : MSt) (row col : Int)
    (h1 : mis_valid_position row col = true)
    (h2 : m.board (toFin3 row, toFin3 col) = none)
    (h3 : m.game_status = MStatus.ongoing) :
    mmake_move m row col = mapplyMove m (toFin3 row, toFin3 col) := by
  have h2' : (m.board (toFin3 row, toFin3 col)).isSome = false := by
    rw [h2]
    rfl
  simp [mmake_move, h1, h2', h3]

/-- The backend trim-then-append history update equals the
append-then-pop update of `game_logic_main.py`. -/
theorem trim_append (h : List Pos) (q : Pos) :
    trimHist h ++ [q] =
      (if 3 < (h ++ [q]).length then (h ++ [q]).tail else h ++ [q]) := by
  by_cases h3 : 3 ≤ h.length
  · cases h with
    | nil => simp at h3
    | cons a t =>
      have hcond : 3 < ((a :: t) ++ [q]).length := by
        simp only [List.length_append, List.length_cons, List.length_singleton]
        simp only [List.length_cons] at h3
        omega
      rw [trimHist_of_full a t h3, if_pos hcond]
      rfl
  · have hlt : h.length < 3 := by omega
    have hcond : ¬ 3 < (h ++ [q]).length := by
      simp only [List.length_append, List.length_singleton]
      omega
    rw [trimHist_of_lt _ hlt, if_neg hcond]

/-- The draw checks of the two engines agree on corresponding boards. -/
theorem check_draw_lift (mb : MBoard) :
    check_draw (fun q => liftCell (mb q)) = mis_board_full mb := by
  rw [check_draw, mis_board_full, decide_eq_decide]
  refine forall_congr' fun q => ?_
  cases hv : mb q with
  | none => simp [liftCell]
  | some u => cases u <;> simp [liftCell, liftP]

/-- Unpack a successful Python line test when the first cell's value is
known. -/
theorem sameSome_eq (x y z : Option MPlayer) (w : MPlayer)
    (hs : sameSome x y z = true) (hx : x = some w) :
    x = some w ∧ y = some w ∧ z = some w := by
  simp only [sameSome, Bool.and_eq_true, beq_iff_eq] at hs
  obtain ⟨⟨hxy, hyz⟩, _⟩ := hs
  exact ⟨hx, by rw [← hxy, hx], by rw [← hyz, ← hxy, hx]⟩

/-- A full line of three equal `some w` cells makes the Python line
test succeed. -/
theorem sameSome_of_eq (x y z : Option MPlayer) (w : MPlayer)
    (hx : x = some w) (hy : y = some w) (hz : z = some w) :
    sameSome x y z = true := by
  simp [sameSome, hx, hy, hz]

/-- A winner reported by `_check_winner` really has a completed line on
the lifted board. -/
theorem mcheck_winner_line (mb : MBoard) (w : MPlayer)
    (h : mcheck_winner mb = some w) :
    check_win (fun q => liftCell (mb q)) (liftP w) = true := by
  unfold mcheck_winner at h
  split_ifs at h with h1 h2 h3 h4 h5 h6 h7 h8 <;>
    (obtain ⟨e1, e2, e3⟩ := sameSome_eq _ _ _ w (by assumption) h
     simp only [check_win, e1, e2, e3, liftCell, beq_self_eq_true,
       Bool.and_self, Bool.true_and, Bool.and_true, Bool.true_or,
       Bool.or_true])

/-- When `_check_winner` reports nobody, no player has a completed line
on the lifted board. -/
theorem mcheck_winner_none (mb : MBoard) (w : MPlayer)
    (h : mcheck_winner mb = none) :
    check_win (fun q => liftCell (mb q)) (liftP w) = false := by
  by_contra hcw
  rw [Bool.not_eq_false] at hcw
  simp only [check_win, Bool.or_eq_true, Bool.and_eq_true, beq_iff_eq,
    liftCell_eq_liftP, or_assoc, and_assoc] at hcw
  unfold mcheck_winner at h
  split_ifs at h with h1 h2 h3 h4 h5 h6 h7 h8
  · rw [h] at h1
    simp [sameSome] at h1
  · rw [h] at h2
    simp [sameSome] at h2
  · rw [h] at h3
    simp [sameSome] at h3
  · rw [h] at h4
    simp [sameSome] at h4
  · rw [h] at h5
    simp [sameSome] at h5
  · rw [h] at h6
    simp [sameSome] at h6
  · rw [h] at h7
    simp [sameSome] at h7
  · rw [h] at h8
    simp [sameSome] at h8
  · rcases hcw with ⟨e1, e2, e3⟩ | ⟨e1, e2, e3⟩ | ⟨e1, e2, e3⟩ | ⟨e1, e2, e3⟩ |
      ⟨e1, e2, e3⟩ | ⟨e1, e2, e3⟩ | ⟨e1, e2, e3⟩ | ⟨e1, e2, e3⟩
    · exact h1 (sameSome_of_eq _ _ _ w e1 e2 e3)
    · exact h2 (sameSome_of_eq _ _ _ w e1 e2 e3)
    · exact h3 (sameSome_of_eq _ _ _ w e1 e2 e3)
    · exact h4 (sameSome_of_eq _ _ _ w e1 e2 e3)
    · exact h5 (sameSome_of_eq _ _ _ w e1 e2 e3)
    · exact h6 (sameSome_of_eq _ _ _ w e1 e2 e3)
    · exact h7 (sameSome_of_eq _ _ _ w e1 e2 e3)
    · exact h8 (sameSome_of_eq _ _ _ w e1 e2 e3)

/-- The backend's clear-then-place board update coincides, cell by
cell, with the place-then-clear update of `game_logic_main.py`, under
the lifting: `hist` is the mover's history, `q` the empty target. -/
theorem board_step_corr (mb : MBoard) (gb : Board) (hist : List Pos)
    (pm : MPlayer) (q : Pos)
    (hb : ∀ q' : Pos, gb q' = liftCell (mb q'))
    (hq : mb q = none)
    (hhead : ∀ old rest, hist = old :: rest → gb old = liftP pm) :
    ∀ q' : Pos, setCell (trimBoard gb hist) q (liftP pm) q' =
      liftCell ((if 3 < (hist ++ [q]).length then
          match hist ++ [q] with
          | [] => msetCell mb q (some pm)
          | old :: _ => msetCell (msetCell mb q (some pm)) old none
        else msetCell mb q (some pm)) q') := by
  have hgq : gb q = Player.EMPTY := by
    rw [hb q, hq]
    rfl
  by_cases h3 : 3 ≤ hist.length
  · obtain ⟨old, rest, rfl⟩ : ∃ old rest, hist = old :: rest := by
      cases hist with
      | nil => simp at h3
      | cons a t => exact ⟨a, t, rfl⟩
    have hold : gb old = liftP pm := hhead old rest rfl
    have holdq : old ≠ q := by
      intro he
      rw [he, hgq] at hold
      cases pm <;> simp [liftP] at hold
    have hcond : 3 < ((old :: rest) ++ [q]).length := by
      simp only [List.length_append, List.length_cons, List.length_singleton]
      simp only [List.length_cons] at h3
      omega
    rw [trimBoard_of_full gb old rest h3]
    intro q'
    rw [if_pos hcond]
    show setCell (setCell gb old Player.EMPTY) q (liftP pm) q' =
      liftCell (msetCell (msetCell mb q (some pm)) old none q')
    by_cases hq'q : q' = q
    · subst hq'q
      simp [setCell, msetCell, Ne.symm holdq, liftCell]
    · by_cases hq'o : q' = old
      · subst hq'o
        simp [setCell, msetCell, hq'q, liftCell]
      · simp [setCell, msetCell, hq'q, hq'o, hb q']
  · have hlt : hist.length < 3 := by omega
    have hcond : ¬ 3 < (hist ++ [q]).length := by
      simp only [List.length_append, List.length_singleton]
      omega
    rw [trimBoard_of_lt gb hist hlt]
    intro q'
    rw [if_neg hcond]
    by_cases hq'q : q' = q
    · subst hq'q
      simp [setCell, msetCell, liftCell]
    · simp [setCell, msetCell, hq'q, hb q']

/-- The backend outcome update coincides with the
`game_logic_main.py` status update on a lifted board, given that the
mover's opponent has no line (so the whole-board winner scan can only
find the mover). -/
theorem status_step_corr (mb2 : MBoard) (pm : MPlayer)
    (hno : check_win (fun q => liftCell (mb2 q))
      (otherPlayer (liftP pm)) = false) :
    (if check_win (fun q => liftCell (mb2 q)) (liftP pm) then
        (if liftP pm = Player.X then GameState.X_WINS else GameState.O_WINS)
      else if check_draw (fun q => liftCell (mb2 q)) then GameState.DRAW
      else GameState.IN_PROGRESS) =
    liftStatus (match mcheck_winner mb2 with
      | some MPlayer.X => MStatus.X_wins
      | some MPlayer.Y => MStatus.Y_wins
      | none => if mis_board_full mb2 then MStatus.draw
        else MStatus.ongoing) := by
  cases hmw : mcheck_winner mb2 with
  | some w =>
    have hw := mcheck_winner_line mb2 w hmw
    have hwpm : w = pm := by
      by_contra hne
      have hwo : liftP w = otherPlayer (liftP pm) := by
        cases w <;> cases pm <;> simp_all [liftP, otherPlayer]
      rw [hwo, hno] at hw
      cases hw
    subst hwpm
    rw [if_pos hw]
    cases w <;> simp [liftP, liftStatus]
  | none =>
    have hnw : check_win (fun q => liftCell (mb2 q)) (liftP pm) = false :=
      mcheck_winner_none mb2 pm hmw
    rw [if_neg (by rw [hnw]; exact Bool.false_ne_true), check_draw_lift]
    cases hf : mis_board_full mb2 with
    | true => simp [liftStatus]
    | false => simp [liftStatus]

/-- The player switches of the two engines agree under the lifting. -/
theorem player_switch_corr (pm : MPlayer) :
    (if liftP pm = Player.X then Player.O else Player.X) =
      liftP (if pm = MPlayer.X then MPlayer.Y else MPlayer.X) := by
  cases pm <;> simp [liftP]

/-- The mover's history after the append of `make_move`. -/
def mH1 (m : MSt) (pm : MPlayer) (q : Pos) : List Pos := movesOf m pm ++ [q]

/-- The board produced by the successful path of `make_move`. -/
def mB2 (m : MSt) (pm : MPlayer) (q : Pos) : MBoard :=
  if 3 < (mH1 m pm q).length then
    match mH1 m pm q with
    | [] => msetCell m.board q (some pm)
    | old :: _ => msetCell (msetCell m.board q (some pm)) old none
  else msetCell m.board q (some pm)

/-- The mover's history after the pop of the infinite rule. -/
def mH2 (m : MSt) (pm : MPlayer) (q : Pos) : List Pos :=
  if 3 < (mH1 m pm q).length then (mH1 m pm q).tail else mH1 m pm q

/-- The status produced by the successful path of `make_move`. -/
def mNewStatus (m : MSt) (pm : MPlayer) (q : Pos) : MStatus :=
  match mcheck_winner (mB2 m pm q) with
  | some MPlayer.X => MStatus.X_wins
  | some MPlayer.Y => MStatus.Y_wins
  | none => if mis_board_full (mB2 m pm q) then MStatus.draw else m.game_status

/-- The state after the successful path of `make_move`, in terms of the
named pieces above. -/
theorem mapplyMove_reduce (m : MSt) (q : Pos) :
    (mapplyMove m q).2 =
      { board := mB2 m m.current_player q
        moves_X := if m.current_player = MPlayer.X then
            mH2 m m.current_player q
          else m.moves_X
        moves_Y := if m.current_player = MPlayer.X then m.moves_Y
          else mH2 m m.current_player q
        current_player := if m.current_player = MPlayer.X then MPlayer.Y
          else MPlayer.X
        game_status := mNewStatus m m.current_player q
        total_moves := m.total_moves + 1 } := rfl

/-- Accepted moves from corresponding states lead to corresponding
states. -/
theorem corr_applyMove (m : MSt) (g : GameSt) (hc : Corr m g) (hinv : Inv g)
    (row col : Int)
    (h1 : mis_valid_position row col = true)
    (h2 : m.board (toFin3 row, toFin3 col) = none)
    (h3 : m.game_status = MStatus.ongoing) :
    Corr (mapplyMove m (toFin3 row, toFin3 col)).2
      (applyMove g (toFin3 row) (toFin3 col)) := by
  have hv : is_valid_move g row col = true :=
    (accept_iff m g hc row col).mpr ⟨h1, h2, h3⟩
  have hgs : g.state = GameState.IN_PROGRESS := by
    rw [hc.status, h3]
    rfl
  have hno := opponent_no_line g row col hinv hv
  rw [mapplyMove_reduce m (toFin3 row, toFin3 col)]
  cases hpm : m.current_player with
  | X =>
    have hp : g.current_player = Player.X := by
      rw [hc.player, hpm]
      rfl
    have hhead : ∀ old rest, m.moves_X = old :: rest →
        g.board old = liftP MPlayer.X := by
      intro old rest hrest
      have hmem : old ∈ g.move_history_x := by
        rw [hc.histX, hrest]
        exact List.mem_cons_self old rest
      exact (hinv.cellX old).mpr hmem
    have hbc := board_step_corr m.board g.board m.moves_X MPlayer.X
      (toFin3 row, toFin3 col) hc.board h2 hhead
    have hfe : setCell (trimBoard g.board m.moves_X)
        (toFin3 row, toFin3 col) Player.X =
        (fun q' => liftCell (mB2 m MPlayer.X (toFin3 row, toFin3 col) q')) :=
      funext fun q' => hbc q'
    rw [applyMove_X g _ _ hp, hc.histX, hgs]
    rw [applyMove_X g _ _ hp, hc.histX] at hno
    dsimp only at hno ⊢
    rw [hp] at hno
    refine ⟨?_, ?_, ?_, ?_, ?_⟩
    · intro q'
      exact hbc q'
    · exact trim_append m.moves_X (toFin3 row, toFin3 col)
    · exact hc.histO
    · rfl
    · rw [hfe] at hno ⊢
      show _ = liftStatus (mNewStatus m MPlayer.X (toFin3 row, toFin3 col))
      simp only [mNewStatus]
      rw [h3]
      exact status_step_corr (mB2 m MPlayer.X (toFin3 row, toFin3 col))
        MPlayer.X hno
  | Y =>
    have hp : g.current_player = Player.O := by
      rw [hc.player, hpm]
      rfl
    have hhead : ∀ old rest, m.moves_Y = old :: rest →
        g.board old = liftP MPlayer.Y := by
      intro old rest hrest
      have hmem : old ∈ g.move_history_o := by
        rw [hc.histO, hrest]
        exact List.mem_cons_self old rest
      exact (hinv.cellO old).mpr hmem
    have hbc := board_step_corr m.board g.board m.moves_Y MPlayer.Y
      (toFin3 row, toFin3 col) hc.board h2 hhead
    have hfe : setCell (trimBoard g.board m.moves_Y)
        (toFin3 row, toFin3 col) Player.O =
        (fun q' => liftCell (mB2 m MPlayer.Y (toFin3 row, toFin3 col) q')) :=
      funext fun q' => hbc q'
    rw [applyMove_O g _ _ hp, hc.histO, hgs]
    rw [applyMove_O g _ _ hp, hc.histO] at hno
    dsimp only at hno ⊢
    rw [hp] at hno
    refine ⟨?_, ?_, ?_, ?_, ?_⟩
    · intro q'
      exact hbc q'
    · exact hc.histX
    · exact trim_append m.moves_Y (toFin3 row, toFin3 col)
    · rfl
    · rw [hfe] at hno ⊢
      show _ = liftStatus (mNewStatus m MPlayer.Y (toFin3 row, toFin3 col))
      simp only [mNewStatus]
      rw [h3]
      exact status_step_corr (mB2 m MPlayer.Y (toFin3 row, toFin3 col))
        MPlayer.Y hno

/-- One move attempt from corresponding states: same accept/reject
decision, and the resulting states correspond. -/
theorem corr_step (m : MSt) (g : GameSt) (hc : Corr m g) (hinv : Inv g)
    (row col : Int) :
    ((mmake_move m row col).1).isOk = (make_move g row col).1 ∧
    Corr (mmake_move m row col).2 (make_move g row col).2 := by
  by_cases hacc : mis_valid_position row col = true ∧
      m.board (toFin3 row, toFin3 col) = none ∧
      m.game_status = MStatus.ongoing
  · obtain ⟨h1, h2, h3⟩ := hacc
    have hv : is_valid_move g row col = true :=
      (accept_iff m g hc row col).mpr ⟨h1, h2, h3⟩
    rw [mmake_move_success_eq m row col h1 h2 h3, make_move_valid g row col hv]
    exact ⟨rfl, corr_applyMove m g hc hinv row col h1 h2 h3⟩
  · have hv : is_valid_move g row col = false := by
      cases hval : is_valid_move g row col with
      | false => rfl
      | true => exact absurd ((accept_iff m g hc row col).mp hval) hacc
    have hmf : ((mmake_move m row col).1).isOk = false := by
      cases hok : ((mmake_move m row col).1).isOk with
      | false => rfl
      | true => exact absurd ((mmake_move_isOk_iff m row col).mp hok) hacc
    rw [make_move_invalid g row col hv]
    refine ⟨by rw [hmf], ?_⟩
    rw [mmake_move_not_ok_eq m row col hmf]
    exact hc

/-- Running the same move attempts through both engines from
corresponding invariant states keeps the states corresponding. -/
theorem corr_foldl (l : List (Int × Int)) (m : MSt) (g : GameSt)
    (hc : Corr m g) (hinv : Inv g) :
    Corr (l.foldl mstep m) (l.foldl Backend.step g) := by
  induction l generalizing m g with
  | nil => exact hc
  | cons mv tl ih =>
    simp only [List.foldl_cons]
    exact ih _ _ (corr_step m g hc hinv mv.1 mv.2).2
      (inv_make_move g mv.1 mv.2 hinv)

end Bridge

section ClaimC8

open Backend MainImpl

/-- **C8.** The two engine implementations are behaviorally
equivalent: running any sequence of integer (row, col) move attempts
from the initial state, `src/backend/game_logic.py` and
`src/Back-End-Game-Logic/game_logic_main.py` end with the same board
contents, the same move histories, the same current player and the same
outcome — up to renaming player `Y` to `O` and the status labels — and
the next attempt, whatever it is, is accepted by one exactly when it is
accepted by the other. -/
theorem engines_equivalent (l : List (Int × Int)) (row col : Int) :
    (∀ q : Pos, (runMoves l).board q = Bridge.liftCell ((mrunMoves l).board q)) ∧
    (runMoves l).move_history_x = (mrunMoves l).moves_X ∧
    (runMoves l).move_history_o = (mrunMoves l).moves_Y ∧
    (runMoves l).current_player = Bridge.liftP (mrunMoves l).current_player ∧
    (runMoves l).state = Bridge.liftStatus (mrunMoves l).game_status ∧
    ((mmake_move (mrunMoves l) row col).1).isOk =
      (make_move (runMoves l) row col).1 := by
  have hc : Bridge.Corr (mrunMoves l) (runMoves l) :=
    Bridge.corr_foldl l minit initSt Bridge.corr_init inv_initSt
  have hinv : Inv (runMoves l) := inv_reachable _ (runMoves_reachable l)
  exact ⟨hc.board, hc.histX, hc.histO, hc.player, hc.status,
    (Bridge.corr_step (mrunMoves l) (runMoves l) hc hinv row col).1⟩

end ClaimC8
